import Mathlib

/-!
Verification development for the chunked quiz-aggregation pipeline of
the AI-quiz-maker repository (src/ai_agent.py, class QuizGenerator).

The pipeline is shallowly embedded: the text-completion service, which the
source reaches through awaited Runner.run calls, is modelled as an oracle of
scripted per-chunk responses (a raised service error is an .error value), and
the persistence collaborator save_text_to_file is modelled as a fallible call
whose failure propagates to the pipeline's top-level guard.  The observable
actions of one document run (summarization requests, question-generation
requests, the summary save) are recorded in an event trace.
-/

namespace AIQuiz

/-- Modelled from the spec (section 3, models.py is not part of src/):
an answer is text plus an integer score from the fixed tier set. -/
structure ScoredAnswer where
  text : String
  score : Int
deriving DecidableEq

/-- Modelled from the spec (section 3, models.py is not part of src/):
a question is question text plus its scored answers. -/
structure Question where
  question_text : String
  answers : List ScoredAnswer
deriving DecidableEq

/-- Modelled from the spec (section 3, models.py is not part of src/):
a quiz is an ordered sequence of questions. -/
structure Quiz where
  questions : List Question
deriving DecidableEq

/-- MAX_CHUNK_SIZE from src/ai_agent.py line 12. -/
def MAX_CHUNK_SIZE : Nat := 15000

/-- Fuel-indexed worker for `splitChunks`; the fuel is an upper bound on the
text length, so the fallback second branch is never reached from
`splitChunks`.  Mirrors the loop of `_split_text_into_chunks`
(src/ai_agent.py lines 30-32): take a chunk of `chunkSize`, recurse on the
rest. -/
def splitChunksAux (chunkSize : Nat) : Nat → List Char → List (List Char)
  | _, [] => []
  | 0, l => [l]
  | fuel + 1, c :: rest =>
      ((c :: rest).take chunkSize) :: splitChunksAux chunkSize fuel ((c :: rest).drop chunkSize)

/-- `_split_text_into_chunks` (src/ai_agent.py lines 28-34): the text is cut
into consecutive slices `text[i:i+chunk_size]` for `i = 0, chunk_size, ...`.
Modelled for `chunkSize > 0` (the only case the source exercises; Python's
`range` raises on a zero step). -/
def splitChunks (chunkSize : Nat) (text : List Char) : List (List Char) :=
  splitChunksAux chunkSize text.length text

/-- Fuel-indexed worker for `replaceAll`; fuel bounds the string length.
Mirrors Python `str.replace(pat, '')` for a non-empty `pat`: scan left to
right, removing each non-overlapping occurrence of `pat`. -/
def replaceAllAux (pat : List Char) : Nat → List Char → List Char
  | _, [] => []
  | 0, l => l
  | fuel + 1, c :: rest =>
      if pat ≠ [] ∧ pat.isPrefixOf (c :: rest) then
        replaceAllAux pat fuel ((c :: rest).drop pat.length)
      else c :: replaceAllAux pat fuel rest

/-- Python `s.replace(pat, '')` for non-empty `pat`: remove every
non-overlapping occurrence of `pat`, scanning left to right. -/
def replaceAll (pat s : List Char) : List Char :=
  replaceAllAux pat s.length s

/-- `filename.replace('.pdf', '').replace('.txt', '')`
(src/ai_agent.py line 73). -/
def base_filename (filename : List Char) : List Char :=
  replaceAll (".txt".toList) (replaceAll (".pdf".toList) filename)

/-- Modelled from the spec (section 4.6, "derive document identifier by
stripping known file extensions from the filename"): drop a trailing ".pdf"
or ".txt"; used only to compare the source's identifier derivation against
the spec's wording. -/
def stripKnownExtension (filename : List Char) : List Char :=
  if (".pdf".toList).isSuffixOf filename then filename.take (filename.length - 4)
  else if (".txt".toList).isSuffixOf filename then filename.take (filename.length - 4)
  else filename

/-- Scripted environment for one document run. `summarize i` is the
text-completion response for chunk `i`'s summarization request (`.error` = the
request raised); `generate i k` is the response to the request for `k`
questions from chunk `i`'s summary (`.ok none` = falsy `final_output`);
`save` is the outcome of the single `save_text_to_file` call (modelled from
the spec, section 6: the collaborator's failure is not specifically handled
beyond the pipeline's top-level guard). -/
structure Oracle where
  summarize : Nat → Except Unit String
  generate : Nat → Int → Except Unit (Option Quiz)
  save : Except Unit Unit

/-- `_summarize_chunk` (src/ai_agent.py lines 36-58): return the service's
summary, or the empty string when the request raises. -/
def summarizeChunk (ora : Oracle) (i : Nat) : String :=
  match ora.summarize i with
  | .ok s => s
  | .error _ => ""

/-- The allocation expression of src/ai_agent.py line 124:
`max(1, (remaining + rc - 1) // rc) if rc > 0 else 0`, with Python's floor
division `//` rendered as `Int.fdiv`. -/
def questionsToAttempt (remaining : Int) (rc : Nat) : Int :=
  if 0 < rc then max 1 ((remaining + rc - 1).fdiv rc) else 0

/-- The per-document mutable aggregation state: `all_questions` and
`aggregated_chunk_summaries_for_saving` of src/ai_agent.py lines 82-83. -/
structure LoopState where
  allQuestions : List Question
  summaries : List String
deriving DecidableEq

/-- An observable action of the pipeline: a summarization request for chunk
`i`, a generation request for chunk `i` asking `k` questions, or the save of
the aggregated summary (content, file name). -/
inductive Event where
  | summarizeReq : Nat → Event
  | genReq : Nat → Int → Event
  | saveSummary : String → List Char → Event
deriving DecidableEq

/-- The per-chunk loop of `create_quiz_from_text` (src/ai_agent.py lines
102-184), as structural recursion on the number `rem` of chunks still to
iterate, with `i` the current 0-based chunk index and `N` the total chunk
count (`num_chunks`).  Returns the final aggregation state and the trace of
requests issued.  Each iteration: summarize; on an empty summary skip the
chunk; otherwise append the summary, break if the target is met (or is 0),
compute the allocation, and issue the generation request, extending
`allQuestions` with whatever questions the service returned. -/
def chunkLoop (ora : Oracle) (numTotal : Int) (N : Nat) :
    Nat → Nat → LoopState → LoopState × List Event
  | 0, _, st => (st, [])
  | rem + 1, i, st =>
      let summary := summarizeChunk ora i
      if summary = "" then
        let r := chunkLoop ora numTotal N rem (i + 1) st
        (r.1, Event.summarizeReq i :: r.2)
      else
        let st1 : LoopState := ⟨st.allQuestions, st.summaries ++ [summary]⟩
        let remaining : Int := numTotal - st1.allQuestions.length
        if remaining ≤ 0 ∧ 0 < numTotal then
          (st1, [Event.summarizeReq i])
        else if numTotal = 0 then
          (st1, [Event.summarizeReq i])
        else
          let toAttempt := questionsToAttempt remaining (N - i)
          if toAttempt ≤ 0 then
            let r := chunkLoop ora numTotal N rem (i + 1) st1
            (r.1, Event.summarizeReq i :: r.2)
          else
            let newQs : List Question :=
              match ora.generate i toAttempt with
              | .error _ => []
              | .ok none => []
              | .ok (some qz) => qz.questions
            let st2 : LoopState := ⟨st1.allQuestions ++ newQs, st1.summaries⟩
            let r := chunkLoop ora numTotal N rem (i + 1) st2
            (r.1, Event.summarizeReq i :: Event.genReq i toAttempt :: r.2)

/-- The final truncation of src/ai_agent.py line 199:
`all_questions[:num_questions_total] if num_questions_total > 0 else
all_questions`. -/
def finalQuestions (numTotal : Int) (qs : List Question) : List Question :=
  if 0 < numTotal then qs.take numTotal.toNat else qs

/-- `create_quiz_from_text` (src/ai_agent.py lines 60-206): derive the base
identifier, split the text with the default chunk size, run the per-chunk
loop, save the aggregated summary when at least one chunk summary was
collected, and return the final quiz (truncated when the target is positive)
with the identifier — or `(none, identifier)` when there are no chunks or no
questions, and `(none, none)` when the save raises (the top-level guard of
lines 203-206).  The second component is the trace of issued requests. -/
def create_quiz_from_text (ora : Oracle) (text : List Char)
    (filename : List Char) (numTotal : Int) :
    ((Option Quiz) × Option (List Char)) × List Event :=
  let base := base_filename filename
  let chunks := splitChunks MAX_CHUNK_SIZE text
  let N := chunks.length
  if N = 0 then ((none, some base), [])
  else
    let r := chunkLoop ora numTotal N N 0 ⟨[], []⟩
    if r.1.summaries = [] then
      if r.1.allQuestions = [] then ((none, some base), r.2)
      else ((some ⟨finalQuestions numTotal r.1.allQuestions⟩, some base), r.2)
    else
      let evs := r.2 ++
        [Event.saveSummary (String.intercalate "\n\n" r.1.summaries)
          (base ++ "_summary.txt".toList)]
      match ora.save with
      | .error _ => ((none, none), evs)
      | .ok _ =>
        if r.1.allQuestions = [] then ((none, some base), evs)
        else ((some ⟨finalQuestions numTotal r.1.allQuestions⟩, some base), evs)

/-- A sample question used by the concrete scripted runs below. -/
def exQ : Question := ⟨"q", []⟩

/-- Scripted run for the allocation example: every chunk summarizes to "s"
and every generation request returns 3 questions (an under-delivery when more
were requested). -/
def oraAlloc : Oracle :=
  ⟨fun _ => .ok "s", fun _ _ => .ok (some ⟨[exQ, exQ, exQ]⟩), .ok ()⟩

/-- Scripted run for the short-circuit example: generation always returns 5
questions. -/
def oraFive : Oracle :=
  ⟨fun _ => .ok "s", fun _ _ => .ok (some ⟨[exQ, exQ, exQ, exQ, exQ]⟩), .ok ()⟩

/-- Scripted run where chunk 0's summarization raises and chunk 1's
succeeds. -/
def oraSkip : Oracle :=
  ⟨fun i => if i = 0 then .error () else .ok "s", fun _ _ => .ok (some ⟨[exQ]⟩), .ok ()⟩

/-- Scripted run for the drain phase: chunk 1's summarization raises, chunk
2's returns "t", the others return "s". -/
def oraDrain : Oracle :=
  ⟨fun i => if i = 1 then .error () else if i = 2 then .ok "t" else .ok "s",
    fun _ _ => .ok (some ⟨[exQ]⟩), .ok ()⟩

/-- Scripted run where every generation succeeds with one question but the
summary save raises. -/
def oraSaveFail : Oracle :=
  ⟨fun _ => .ok "s", fun _ _ => .ok (some ⟨[exQ]⟩), .error ()⟩

/-- Scripted run where every summarization raises. -/
def oraAllFail : Oracle :=
  ⟨fun _ => .error (), fun _ _ => .ok none, .ok ()⟩

/-- Scripted run where summarization succeeds but generation never yields
questions. -/
def oraNoQuestions : Oracle :=
  ⟨fun _ => .ok "s", fun _ _ => .ok none, .ok ()⟩

/-- A pattern does not overlap itself: no strict non-trivial suffix-start of
the pattern is also its prefix.  Both '.pdf' and '.txt' satisfy this;
it rules out new pattern occurrences spanning a removal boundary. -/
def overlapFree (pat : List Char) : Prop :=
  ∀ m, 0 < m → m < pat.length → pat.drop m ≠ pat.take (pat.length - m)

/-- Every event the per-chunk loop emits is a summarization or generation
request, and its chunk index is at least the starting index. -/
theorem chunkLoop_events (ora : Oracle) (numTotal : Int) (N : Nat) :
    ∀ (rem i : Nat) (st : LoopState) (e : Event),
      e ∈ (chunkLoop ora numTotal N rem i st).2 →
      (∃ j, i ≤ j ∧ e = Event.summarizeReq j) ∨
        (∃ j k, i ≤ j ∧ e = Event.genReq j k) := by
  intro rem
  induction rem with
  | zero => intro i st e he; simp [chunkLoop] at he
  | succ rem ih =>
    intro i st e he
    simp only [chunkLoop] at he
    by_cases hs : summarizeChunk ora i = ""
    · simp only [hs, if_pos rfl] at he
      rcases List.mem_cons.mp he with h | h
      · exact Or.inl ⟨i, le_refl i, h⟩
      · rcases ih (i + 1) st e h with ⟨j, hj, hje⟩ | ⟨j, k, hj, hje⟩
        · exact Or.inl ⟨j, le_trans (Nat.le_succ i) hj, hje⟩
        · exact Or.inr ⟨j, k, le_trans (Nat.le_succ i) hj, hje⟩
    · simp only [if_neg hs] at he
      split at he
      · rcases List.mem_singleton.mp he with rfl
        exact Or.inl ⟨i, le_refl i, rfl⟩
      · split at he
        · rcases List.mem_singleton.mp he with rfl
          exact Or.inl ⟨i, le_refl i, rfl⟩
        · split at he
          · rcases List.mem_cons.mp he with h | h
            · exact Or.inl ⟨i, le_refl i, h⟩
            · rcases ih (i + 1) _ e h with ⟨j, hj, hje⟩ | ⟨j, k, hj, hje⟩
              · exact Or.inl ⟨j, le_trans (Nat.le_succ i) hj, hje⟩
              · exact Or.inr ⟨j, k, le_trans (Nat.le_succ i) hj, hje⟩
          · rcases List.mem_cons.mp he with h | h
            · exact Or.inl ⟨i, le_refl i, h⟩
            · rcases List.mem_cons.mp h with h | h
              · exact Or.inr ⟨i, _, le_refl i, h⟩
              · rcases ih (i + 1) _ e h with ⟨j, hj, hje⟩ | ⟨j, k, hj, hje⟩
                · exact Or.inl ⟨j, le_trans (Nat.le_succ i) hj, hje⟩
                · exact Or.inr ⟨j, k, le_trans (Nat.le_succ i) hj, hje⟩

/-- The per-chunk loop never emits a save event. -/
theorem chunkLoop_no_save (ora : Oracle) (numTotal : Int) (N rem i : Nat)
    (st : LoopState) (c : String) (f : List Char) :
    Event.saveSummary c f ∉ (chunkLoop ora numTotal N rem i st).2 := by
  intro hmem
  rcases chunkLoop_events ora numTotal N rem i st _ hmem with ⟨j, _, h⟩ | ⟨j, k, _, h⟩ <;>
    exact Event.noConfusion h

/-- The summaries accumulated by the loop are exactly the non-empty chunk
summaries, in chunk order, of some initial run `i, i+1, ..., i+k-1` of the
chunks still to process, appended to the incoming summaries. -/
theorem chunkLoop_summaries (ora : Oracle) (numTotal : Int) (N : Nat) :
    ∀ (rem i : Nat) (st : LoopState),
      ∃ k, k ≤ rem ∧
        (chunkLoop ora numTotal N rem i st).1.summaries =
          st.summaries ++
            (((List.range' i k).map (summarizeChunk ora)).filter
              (fun s => !(s == ""))) := by
  intro rem
  induction rem with
  | zero => intro i st; exact ⟨0, le_refl 0, by simp [chunkLoop]⟩
  | succ rem ih =>
    intro i st
    simp only [chunkLoop]
    by_cases hs : summarizeChunk ora i = ""
    · rcases ih (i + 1) st with ⟨k, hk, hsum⟩
      refine ⟨k + 1, Nat.succ_le_succ hk, ?_⟩
      simpa [hs, List.range'_succ, List.filter] using hsum
    · have hb : (summarizeChunk ora i == "") = false := beq_eq_false_iff_ne.mpr hs
      simp only [if_neg hs]
      split
      · exact ⟨1, Nat.one_le_iff_ne_zero.mpr (Nat.succ_ne_zero rem),
          by simp [List.range'_succ, List.filter, hb]⟩
      · split
        · exact ⟨1, Nat.one_le_iff_ne_zero.mpr (Nat.succ_ne_zero rem),
            by simp [List.range'_succ, List.filter, hb]⟩
        · split
          · rcases ih (i + 1) ⟨st.allQuestions, st.summaries ++ [summarizeChunk ora i]⟩
              with ⟨k, hk, hsum⟩
            refine ⟨k + 1, Nat.succ_le_succ hk, ?_⟩
            simp only [hsum]
            simp [List.range'_succ, List.filter, hb]
          · rcases ih (i + 1)
              ⟨st.allQuestions ++
                (match ora.generate i
                    (questionsToAttempt (numTotal - (st.allQuestions.length : Int)) (N - i)) with
                  | Except.error _ => []
                  | Except.ok none => []
                  | Except.ok (some qz) => qz.questions),
                st.summaries ++ [summarizeChunk ora i]⟩
              with ⟨k, hk, hsum⟩
            refine ⟨k + 1, Nat.succ_le_succ hk, ?_⟩
            simp only [hsum]
            simp [List.range'_succ, List.filter, hb]

/-- If a loop run leaves the accumulated summaries unchanged, it also leaves
the accumulated questions unchanged: questions are only generated for a chunk
whose (non-empty) summary was just appended. -/
theorem chunkLoop_questions_of_summaries_eq (ora : Oracle) (numTotal : Int) (N : Nat) :
    ∀ (rem i : Nat) (st : LoopState),
      (chunkLoop ora numTotal N rem i st).1.summaries = st.summaries →
      (chunkLoop ora numTotal N rem i st).1.allQuestions = st.allQuestions := by
  intro rem
  induction rem with
  | zero => intro i st _; simp [chunkLoop]
  | succ rem ih =>
    intro i st hsum
    simp only [chunkLoop] at hsum ⊢
    by_cases hs : summarizeChunk ora i = ""
    · simp only [hs, if_pos rfl] at hsum ⊢
      exact ih (i + 1) st hsum
    · exfalso
      simp only [if_neg hs] at hsum
      split at hsum
      · have hlen := congrArg List.length hsum
        simp at hlen
      · split at hsum
        · have hlen := congrArg List.length hsum
          simp at hlen
        · split at hsum
          · obtain ⟨k, _, h⟩ := chunkLoop_summaries ora numTotal N rem (i + 1)
              ⟨st.allQuestions, st.summaries ++ [summarizeChunk ora i]⟩
            rw [h] at hsum
            have hlen := congrArg List.length hsum
            simp [List.length_append] at hlen
          · obtain ⟨k, _, h⟩ := chunkLoop_summaries ora numTotal N rem (i + 1)
              ⟨st.allQuestions ++
                (match ora.generate i
                    (questionsToAttempt (numTotal - (st.allQuestions.length : Int)) (N - i)) with
                  | Except.error _ => []
                  | Except.ok none => []
                  | Except.ok (some qz) => qz.questions),
                st.summaries ++ [summarizeChunk ora i]⟩
            rw [h] at hsum
            have hlen := congrArg List.length hsum
            simp [List.length_append] at hlen

/-- Once the target is met (or the target is 0), the loop issues no further
generation request and accumulates no further question, whatever chunks
remain. -/
theorem chunkLoop_no_gen (ora : Oracle) (numTotal : Int) (N : Nat) :
    ∀ (rem i : Nat) (st : LoopState),
      (numTotal = 0 ∨ (0 < numTotal ∧ numTotal ≤ (st.allQuestions.length : Int))) →
      (chunkLoop ora numTotal N rem i st).1.allQuestions = st.allQuestions ∧
        ∀ j k, Event.genReq j k ∉ (chunkLoop ora numTotal N rem i st).2 := by
  intro rem
  induction rem with
  | zero => intro i st _; simp [chunkLoop]
  | succ rem ih =>
    intro i st hc
    simp only [chunkLoop]
    by_cases hs : summarizeChunk ora i = ""
    · simp only [hs, if_pos rfl]
      rcases ih (i + 1) st hc with ⟨hq, hg⟩
      refine ⟨hq, ?_⟩
      intro j k hmem
      rcases List.mem_cons.mp hmem with h | h
      · exact Event.noConfusion h
      · exact hg j k h
    · simp only [if_neg hs]
      split
      · simp
      · split
        · simp
        · exfalso
          rename_i hA hB
          rcases hc with h0 | ⟨hpos, hle⟩
          · exact hB h0
          · exact hA ⟨by omega, hpos⟩

/-- Once the target is met (or the target is 0), the loop keeps summarizing
chunks, in order, exactly up to the first chunk `j` whose summary is
non-empty; that summary is appended to the accumulated summaries, the loop
then stops, and the only requests issued in this phase are the summarization
requests for chunks `i..j`. -/
theorem chunkLoop_drain (ora : Oracle) (numTotal : Int) (N : Nat) :
    ∀ (rem i j : Nat) (st : LoopState),
      (numTotal = 0 ∨ (0 < numTotal ∧ numTotal ≤ (st.allQuestions.length : Int))) →
      i ≤ j → j < i + rem →
      (∀ m, i ≤ m → m < j → summarizeChunk ora m = "") →
      summarizeChunk ora j ≠ "" →
      chunkLoop ora numTotal N rem i st =
        (⟨st.allQuestions, st.summaries ++ [summarizeChunk ora j]⟩,
          (List.range' i (j + 1 - i)).map Event.summarizeReq) := by
  intro rem
  induction rem with
  | zero => intro i j st _ hij hlt _ _; omega
  | succ rem ih =>
    intro i j st hc hij hlt hpre hj
    by_cases hij' : i = j
    · subst hij'
      simp only [chunkLoop, if_neg hj]
      have hrange : i + 1 - i = 1 := by omega
      rw [hrange]
      split
      · simp [List.range']
      · split
        · simp [List.range']
        · exfalso
          rename_i hA hB
          rcases hc with h0 | ⟨hpos, hle⟩
          · exact hB h0
          · exact hA ⟨by omega, hpos⟩
    · have hilt : i < j := lt_of_le_of_ne hij hij'
      have hs : summarizeChunk ora i = "" := hpre i (le_refl i) hilt
      simp only [chunkLoop, hs, if_pos rfl]
      rw [ih (i + 1) j st hc (by omega) (by omega)
        (fun m hm hmj => hpre m (by omega) hmj) hj]
      have hrange : j + 1 - i = (j - i) + 1 := by omega
      have hrange2 : j + 1 - (i + 1) = j - i := by omega
      rw [hrange, hrange2, List.range'_succ]
      simp

/-- When every remaining chunk's summarization fails, the loop changes
nothing and merely issues the summarization requests for all of them. -/
theorem chunkLoop_all_empty (ora : Oracle) (numTotal : Int) (N : Nat) :
    ∀ (rem i : Nat) (st : LoopState),
      (∀ m, i ≤ m → m < i + rem → summarizeChunk ora m = "") →
      chunkLoop ora numTotal N rem i st =
        (st, (List.range' i rem).map Event.summarizeReq) := by
  intro rem
  induction rem with
  | zero => intro i st _; simp [chunkLoop]
  | succ rem ih =>
    intro i st hall
    have hs : summarizeChunk ora i = "" := hall i (le_refl i) (by omega)
    simp only [chunkLoop, hs, if_pos rfl]
    rw [ih (i + 1) st (fun m hm hmr => hall m (by omega) (by omega))]
    rw [List.range'_succ]
    simp

/-- Concatenating the chunks produced by the fuel-indexed splitter
reproduces the text. -/
theorem splitChunksAux_flatten (S : Nat) (hS : 0 < S) :
    ∀ (fuel : Nat) (t : List Char), t.length ≤ fuel →
      (splitChunksAux S fuel t).flatten = t := by
  intro fuel
  induction fuel with
  | zero =>
    intro t ht
    rw [List.length_eq_zero.mp (Nat.le_zero.mp ht)]
    simp [splitChunksAux]
  | succ fuel ih =>
    intro t ht
    match t with
    | [] => simp [splitChunksAux]
    | c :: rest =>
      simp only [splitChunksAux, List.flatten_cons]
      rw [ih ((c :: rest).drop S) (by simp only [List.length_drop, List.length_cons]; simp only [List.length_cons] at ht; omega)]
      exact List.take_append_drop S (c :: rest)

/-- Every chunk the fuel-indexed splitter produces has length at most the
chunk size. -/
theorem splitChunksAux_le (S : Nat) (hS : 0 < S) :
    ∀ (fuel : Nat) (t : List Char), t.length ≤ fuel →
      ∀ c ∈ splitChunksAux S fuel t, c.length ≤ S := by
  intro fuel
  induction fuel with
  | zero =>
    intro t ht
    rw [List.length_eq_zero.mp (Nat.le_zero.mp ht)]
    simp [splitChunksAux]
  | succ fuel ih =>
    intro t ht c hc
    match t with
    | [] => simp [splitChunksAux] at hc
    | x :: rest =>
      simp only [splitChunksAux] at hc
      rcases List.mem_cons.mp hc with h | h
      · subst h
        simp [List.length_take]
      · exact ih ((x :: rest).drop S) (by simp only [List.length_drop, List.length_cons]; simp only [List.length_cons] at ht; omega) c h

/-- The fuel-indexed splitter produces `⌈length / S⌉` chunks. -/
theorem splitChunksAux_length (S : Nat) (hS : 0 < S) :
    ∀ (fuel : Nat) (t : List Char), t.length ≤ fuel →
      (splitChunksAux S fuel t).length = (t.length + S - 1) / S := by
  intro fuel
  induction fuel with
  | zero =>
    intro t ht
    rw [List.length_eq_zero.mp (Nat.le_zero.mp ht)]
    simp [splitChunksAux, Nat.div_eq_of_lt (by omega : S - 1 < S)]
  | succ fuel ih =>
    intro t ht
    match t with
    | [] => simp [splitChunksAux, Nat.div_eq_of_lt (by omega : S - 1 < S)]
    | x :: rest =>
      simp only [splitChunksAux, List.length_cons]
      rw [ih ((x :: rest).drop S) (by simp only [List.length_drop, List.length_cons]; simp only [List.length_cons] at ht; omega)]
      simp only [List.length_drop, List.length_cons]
      rcases le_or_lt (rest.length + 1) S with hLS | hSL
      · have h1 : rest.length + 1 - S = 0 := by omega
        have hdiv : (rest.length + 1 + S - 1) / S = 1 :=
          Nat.div_eq_of_lt_le (k := 1) (by omega) (by omega)
        rw [h1, hdiv]
        rw [Nat.div_eq_of_lt (by omega : 0 + S - 1 < S)]
      · have h1 : rest.length + 1 - S + S - 1 = (rest.length + 1 - 1 - S) + S := by omega
        have h2 : rest.length + 1 + S - 1 = (rest.length + 1 - 1 - S) + S + S := by omega
        rw [h1, h2, Nat.add_div_right _ hS, Nat.add_div_right _ hS, Nat.add_div_right _ hS]

/-- For a positive divisor, the source's floor-division allocation formula
`(r + rc - 1) // rc` is the ceiling of the exact quotient. -/
theorem fdiv_formula_eq_ceil (r : Int) (rc : Nat) (h : 0 < rc) :
    (r + rc - 1).fdiv rc = ⌈(r : ℚ) / (rc : ℚ)⌉ := by
  have hb : (0 : ℤ) < (rc : ℤ) := by exact_mod_cast h
  rw [Int.fdiv_eq_ediv _ (le_of_lt hb)]
  have h1 := Int.ediv_add_emod (r + rc - 1) rc
  have h2 := Int.emod_nonneg (r + rc - 1) (ne_of_gt hb)
  have h3 := Int.emod_lt_of_pos (r + rc - 1) hb
  set q := (r + (rc : ℤ) - 1) / (rc : ℤ) with hq
  set s := (r + (rc : ℤ) - 1) % (rc : ℤ) with hs
  have hlow : (rc : ℤ) * (q - 1) < r := by nlinarith
  have hhigh : r ≤ (rc : ℤ) * q := by nlinarith
  symm
  rw [Int.ceil_eq_iff]
  have hbq : (0 : ℚ) < (rc : ℚ) := by exact_mod_cast h
  constructor
  · rw [lt_div_iff₀ hbq]
    have : ((rc : ℤ) * (q - 1) : ℚ) < (r : ℚ) := by exact_mod_cast hlow
    push_cast at this ⊢
    nlinarith
  · rw [div_le_iff₀ hbq]
    have : (r : ℚ) ≤ ((rc : ℤ) * q : ℚ) := by exact_mod_cast hhigh
    push_cast at this ⊢
    nlinarith

/-- Removing a pattern that does not occur in a string leaves the string
unchanged. -/
theorem replaceAllAux_no_occurrence (pat : List Char) :
    ∀ (fuel : Nat) (s : List Char), s.length ≤ fuel → ¬ pat <:+: s →
      replaceAllAux pat fuel s = s := by
  intro fuel
  induction fuel with
  | zero =>
    intro s hlen _
    rw [List.length_eq_zero.mp (Nat.le_zero.mp hlen)]
    rfl
  | succ fuel ih =>
    intro s hlen hocc
    match s with
    | [] => rfl
    | c :: rest =>
      have hcond : ¬ (pat ≠ [] ∧ pat.isPrefixOf (c :: rest)) := by
        rintro ⟨hne, hpre⟩
        exact hocc (( List.isPrefixOf_iff_prefix.mp hpre).isInfix)
      simp only [replaceAllAux, if_neg hcond]
      rw [ih rest (by simp only [List.length_cons] at hlen; omega)
        (fun hi => hocc (hi.trans (List.suffix_cons c rest).isInfix))]

/-- Removing an overlap-free pattern from `stem ++ pat`, when the pattern
does not occur in `stem`, removes exactly the final occurrence. -/
theorem replaceAllAux_append_pat (pat : List Char) (hne : pat ≠ [])
    (hov : overlapFree pat) :
    ∀ (fuel : Nat) (stem : List Char), stem.length + pat.length ≤ fuel →
      ¬ pat <:+: stem → replaceAllAux pat fuel (stem ++ pat) = stem := by
  intro fuel
  induction fuel with
  | zero =>
    intro stem hlen _
    exfalso
    have := List.length_pos.mpr hne
    omega
  | succ fuel ih =>
    intro stem hlen hocc
    match stem with
    | [] =>
      simp only [List.nil_append]
      match pat, hne with
      | p :: ps, _ =>
        have hcond : (p :: ps ≠ [] ∧ (p :: ps).isPrefixOf (p :: ps)) :=
          ⟨List.cons_ne_nil p ps, List.isPrefixOf_iff_prefix.mpr ( List.prefix_refl _)⟩
        simp only [replaceAllAux, if_pos hcond]
        rw [List.drop_length]
        match fuel with
        | 0 => rfl
        | _ + 1 => rfl
    | c :: rest =>
      have hcond : ¬ (pat ≠ [] ∧ pat.isPrefixOf ((c :: rest) ++ pat)) := by
        rintro ⟨-, hpre⟩
        have heq := List.prefix_iff_eq_take.mp ( List.isPrefixOf_iff_prefix.mp hpre)
        rcases le_or_lt pat.length (c :: rest).length with hnm | hmn
        · rw [List.take_append_eq_append_take,
            Nat.sub_eq_zero_of_le hnm, List.take_zero, List.append_nil] at heq
          exact hocc (List.IsPrefix.isInfix (heq ▸ List.take_prefix pat.length (c :: rest)))
        · rw [List.take_append_eq_append_take,
            List.take_of_length_le (le_of_lt hmn)] at heq
          have hdrop := congrArg (List.drop (c :: rest).length) heq
          rw [List.drop_left] at hdrop
          have hlp : 0 < (c :: rest).length := by simp
          exact hov (c :: rest).length hlp hmn (by
            simpa using hdrop)
      rw [List.cons_append]
      have hcond' : ¬ (pat ≠ [] ∧ pat.isPrefixOf (c :: (rest ++ pat))) := by
        rw [← List.cons_append]; exact hcond
      simp only [replaceAllAux, if_neg hcond']
      rw [ih rest (by simp only [List.length_cons] at hlen; omega)
        (fun hi => hocc (hi.trans (List.suffix_cons c rest).isInfix))]

/-- A pattern occurs in `stem ++ ext` only if it occurs in `stem`, occurs in
`ext`, or one of its proper tails that starts after a proper head is a prefix
of `ext` (a boundary-spanning occurrence). -/
theorem no_occurrence_append (pat stem ext : List Char)
    (h1 : ¬ pat <:+: stem) (h2 : ¬ pat <:+: ext)
    (h3 : ∀ j, 0 < j → j < pat.length → ¬ (pat.drop j <+: ext)) :
    ¬ pat <:+: (stem ++ ext) := by
  induction stem with
  | nil => simpa using h2
  | cons c rest ih =>
    have h1' : ¬ pat <:+: rest :=
      fun hi => h1 (hi.trans (List.suffix_cons c rest).isInfix)
    intro hocc
    rw [List.cons_append, List.infix_cons_iff] at hocc
    rcases hocc with hpre | hocc
    · rw [← List.cons_append] at hpre
      have heq := List.prefix_iff_eq_take.mp hpre
      rcases le_or_lt pat.length (c :: rest).length with hnm | hmn
      · rw [List.take_append_eq_append_take,
          Nat.sub_eq_zero_of_le hnm, List.take_zero, List.append_nil] at heq
        exact h1 (List.IsPrefix.isInfix (heq ▸ List.take_prefix pat.length (c :: rest)))
      · rw [List.take_append_eq_append_take,
          List.take_of_length_le (le_of_lt hmn)] at heq
        have hdrop := congrArg (List.drop (c :: rest).length) heq
        rw [List.drop_left] at hdrop
        have hlp : 0 < (c :: rest).length := by simp
        refine h3 (c :: rest).length hlp hmn ?_
        rw [hdrop]
        exact List.take_prefix _ _
    · exact ih (fun hi => h1 (hi.trans (List.suffix_cons c rest).isInfix)) hocc

/-- C6: for every text and chunk size S > 0, the chunk splitter returns an
ordered list of contiguous non-overlapping chunks whose concatenation equals
the text, every chunk has length at most S, the number of chunks is
`⌈length / S⌉ = (length + S - 1) / S`, and the empty text yields zero chunks
(not a one-element list containing the empty chunk). -/
theorem c6_chunk_splitter (t : List Char) (S : Nat) (hS : 0 < S) :
    (splitChunks S t).flatten = t ∧
    (∀ c ∈ splitChunks S t, c.length ≤ S) ∧
    (splitChunks S t).length = (t.length + S - 1) / S ∧
    (t = [] → splitChunks S t = []) := by
  refine ⟨splitChunksAux_flatten S hS t.length t (le_refl _),
    splitChunksAux_le S hS t.length t (le_refl _),
    splitChunksAux_length S hS t.length t (le_refl _), ?_⟩
  rintro rfl
  rfl

/-- C6 witness: the splitter at chunk size 2 on a five-character text. -/
theorem c6_chunk_splitter_witness :
    (splitChunks 2 ("abcde".toList)).flatten = "abcde".toList ∧
    (splitChunks 2 ("abcde".toList)).length = 3 := by
  have h := c6_chunk_splitter ("abcde".toList) 2 (by decide)
  exact ⟨h.1, by rw [h.2.2.1]; decide⟩

/-- C1: whenever a chunk with a non-empty summary is processed while
`remaining = target - accumulated > 0` questions are still needed, the loop
requests exactly `questionsToAttempt remaining (N - i)` questions for it, and
that allocation equals `⌈remaining / (N - i)⌉` and is at least 1; in the
concrete run with target 10, 3 chunks and 3 questions delivered by each of
the first two chunks, the request for chunk index 2 asks for 4 questions. -/
theorem c1_question_allocation :
    (∀ (r : Int) (rc : Nat), 0 < r → 0 < rc →
      questionsToAttempt r rc = ⌈(r : ℚ) / (rc : ℚ)⌉ ∧
        1 ≤ questionsToAttempt r rc) ∧
    (∀ (ora : Oracle) (numTotal : Int) (N rem i : Nat) (st : LoopState),
      summarizeChunk ora i ≠ "" → i < N →
      0 < numTotal - (st.allQuestions.length : Int) →
      ∃ rest, (chunkLoop ora numTotal N (rem + 1) i st).2 =
        Event.summarizeReq i ::
          Event.genReq i
            (questionsToAttempt (numTotal - (st.allQuestions.length : Int)) (N - i)) ::
          rest) ∧
    Event.genReq 2 4 ∈ (chunkLoop oraAlloc 10 3 3 0 ⟨[], []⟩).2 := by
  refine ⟨?_, ?_, by decide⟩
  · intro r rc hr hrc
    have hceil : 1 ≤ ⌈(r : ℚ) / (rc : ℚ)⌉ := by
      refine Int.ceil_pos.mpr (div_pos ?_ ?_)
      · exact_mod_cast hr
      · exact_mod_cast hrc
    rw [questionsToAttempt, if_pos hrc, fdiv_formula_eq_ceil r rc hrc]
    exact ⟨max_eq_right hceil, le_trans hceil (le_max_right 1 _)⟩
  · intro ora numTotal N rem i st hs hiN hrem
    have hnt : 0 < numTotal := by
      have : (0 : Int) ≤ (st.allQuestions.length : Int) := by positivity
      omega
    have hta : 1 ≤ questionsToAttempt (numTotal - (st.allQuestions.length : Int)) (N - i) := by
      rw [questionsToAttempt, if_pos (by omega : 0 < N - i)]
      exact le_max_left 1 _
    simp only [chunkLoop, if_neg hs]
    rw [if_neg (by rintro ⟨h, -⟩; omega)]
    rw [if_neg (by omega : ¬ numTotal = 0)]
    rw [if_neg (by omega : ¬ questionsToAttempt (numTotal - (st.allQuestions.length : Int)) (N - i) ≤ 0)]
    exact ⟨_, rfl⟩

/-- C1 witness: with remaining target 4 and one remaining chunk, the
allocation is `⌈4/1⌉ = 4`. -/
theorem c1_question_allocation_witness :
    questionsToAttempt 4 1 = 4 ∧ 1 ≤ questionsToAttempt 4 1 := by
  have h := c1_question_allocation.1 4 1 (by decide) (by decide)
  refine ⟨?_, h.2⟩
  rw [h.1]
  norm_num

/-- C4: once the accumulated question count reaches or exceeds a positive
target, the loop never issues another question-generation request from that
state on and accumulates no further questions — later chunks are at most
summarized (for the summary file), never used for quiz generation. -/
theorem c4_short_circuit (ora : Oracle) (numTotal : Int) (N rem i : Nat)
    (st : LoopState) (hpos : 0 < numTotal)
    (hreached : numTotal ≤ (st.allQuestions.length : Int)) :
    (chunkLoop ora numTotal N rem i st).1.allQuestions = st.allQuestions ∧
      ∀ j k, Event.genReq j k ∉ (chunkLoop ora numTotal N rem i st).2 :=
  chunkLoop_no_gen ora numTotal N rem i st (Or.inr ⟨hpos, hreached⟩)

/-- C4 witness: target 5 already delivered by chunk 0; from chunk 1 on,
chunks 1 and 2 receive no generation request. -/
theorem c4_short_circuit_witness :
    (chunkLoop oraFive 5 3 2 1 ⟨[exQ, exQ, exQ, exQ, exQ], ["s"]⟩).1.allQuestions =
      [exQ, exQ, exQ, exQ, exQ] ∧
    Event.genReq 1 5 ∉ (chunkLoop oraFive 5 3 2 1 ⟨[exQ, exQ, exQ, exQ, exQ], ["s"]⟩).2 ∧
    Event.genReq 2 5 ∉ (chunkLoop oraFive 5 3 2 1 ⟨[exQ, exQ, exQ, exQ, exQ], ["s"]⟩).2 := by
  have h := c4_short_circuit oraFive 5 3 2 1 ⟨[exQ, exQ, exQ, exQ, exQ], ["s"]⟩
    (by decide) (by decide)
  exact ⟨h.1, h.2 1 5, h.2 2 5⟩

/-- C10: after the target is reached (positive target, accumulated count at
least the target), the loop still summarizes each subsequent chunk in order
up to the first chunk `j` whose summary is non-empty: chunks whose
summarization fails in this phase do not stop the loop, `j`'s summary is
appended to the accumulated summaries (and hence reaches the persisted
summary file) before the loop breaks, the questions are unchanged, and the
trace of this phase consists of exactly the summarization requests for
chunks `i..j` — in particular no generation request. -/
theorem c10_drain_phase (ora : Oracle) (numTotal : Int) (N rem i j : Nat)
    (st : LoopState) (hpos : 0 < numTotal)
    (hreached : numTotal ≤ (st.allQuestions.length : Int))
    (hij : i ≤ j) (hlt : j < i + rem)
    (hpre : ∀ m, i ≤ m → m < j → summarizeChunk ora m = "")
    (hj : summarizeChunk ora j ≠ "") :
    chunkLoop ora numTotal N rem i st =
      (⟨st.allQuestions, st.summaries ++ [summarizeChunk ora j]⟩,
        (List.range' i (j + 1 - i)).map Event.summarizeReq) :=
  chunkLoop_drain ora numTotal N rem i j st (Or.inr ⟨hpos, hreached⟩) hij hlt hpre hj

/-- C10 witness: target met after chunk 0; chunk 1's summarization fails,
chunk 2's succeeds with "t"; the remaining run summarizes chunks 1 and 2
only, appends "t", and generates nothing. -/
theorem c10_drain_phase_witness :
    chunkLoop oraDrain 5 3 2 1 ⟨[exQ, exQ, exQ, exQ, exQ], ["s"]⟩ =
      (⟨[exQ, exQ, exQ, exQ, exQ], ["s", "t"]⟩,
        [Event.summarizeReq 1, Event.summarizeReq 2]) := by
  have h := c10_drain_phase oraDrain 5 3 2 1 2 ⟨[exQ, exQ, exQ, exQ, exQ], ["s"]⟩
    (by decide) (by decide) (by decide) (by decide)
    (by intro m h1 h2; have hm : m = 1 := by omega
        subst hm; decide)
    (by decide)
  rw [h]
  decide

/-- C7: when chunk `i`'s summarization request raises, `_summarize_chunk`
returns the empty summary instead of raising, and the chunk is skipped
entirely: the loop state passes through unchanged (so the chunk contributes
no questions and no text to the aggregated summary), only the summarization
request for `i` is recorded, no generation request for chunk `i` is ever
issued, and processing continues with the next chunk. -/
theorem c7_failed_summary_skips_chunk (ora : Oracle) (numTotal : Int)
    (N rem i : Nat) (st : LoopState) (herr : ora.summarize i = .error ()) :
    summarizeChunk ora i = "" ∧
    (chunkLoop ora numTotal N (rem + 1) i st).1 =
      (chunkLoop ora numTotal N rem (i + 1) st).1 ∧
    (chunkLoop ora numTotal N (rem + 1) i st).2 =
      Event.summarizeReq i :: (chunkLoop ora numTotal N rem (i + 1) st).2 ∧
    ∀ k, Event.genReq i k ∉ (chunkLoop ora numTotal N (rem + 1) i st).2 := by
  have hs : summarizeChunk ora i = "" := by
    simp [summarizeChunk, herr]
  refine ⟨hs, ?_, ?_, ?_⟩
  · simp [chunkLoop, hs]
  · simp [chunkLoop, hs]
  · intro k hmem
    simp only [chunkLoop, hs, if_pos rfl, ite_true] at hmem
    rcases List.mem_cons.mp hmem with h | h
    · exact Event.noConfusion h
    · rcases chunkLoop_events ora numTotal N rem (i + 1) st _ h with
        ⟨j, hj, hje⟩ | ⟨j, k', hj, hje⟩
      · exact Event.noConfusion hje
      · cases hje
        omega

/-- C7 witness: chunk 0's summarization raises; the first step contributes
nothing and processing continues with chunk 1. -/
theorem c7_failed_summary_skips_chunk_witness :
    summarizeChunk oraSkip 0 = "" ∧
    (chunkLoop oraSkip 10 2 2 0 ⟨[], []⟩).2 =
      Event.summarizeReq 0 :: (chunkLoop oraSkip 10 2 1 1 ⟨[], []⟩).2 ∧
    Event.genReq 0 10 ∉ (chunkLoop oraSkip 10 2 2 0 ⟨[], []⟩).2 := by
  have h := c7_failed_summary_skips_chunk oraSkip 10 2 1 0 ⟨[], []⟩ rfl
  exact ⟨h.1, h.2.2.1, h.2.2.2 10⟩

/-- Driver outcome, case: no chunks. -/
theorem create_quiz_zero_chunks (ora : Oracle) (text filename : List Char)
    (numTotal : Int) (h : (splitChunks MAX_CHUNK_SIZE text).length = 0) :
    create_quiz_from_text ora text filename numTotal =
      ((none, some (base_filename filename)), []) := by
  simp only [create_quiz_from_text]
  rw [if_pos h]

/-- Driver outcome, case: chunks exist but no summary was collected (then no
question was collected either, no save happens, and the result is the no-quiz
outcome with the identifier). -/
theorem create_quiz_no_summaries (ora : Oracle) (text filename : List Char)
    (numTotal : Int) (hN : (splitChunks MAX_CHUNK_SIZE text).length ≠ 0)
    (hsum : (chunkLoop ora numTotal (splitChunks MAX_CHUNK_SIZE text).length
      (splitChunks MAX_CHUNK_SIZE text).length 0 ⟨[], []⟩).1.summaries = []) :
    create_quiz_from_text ora text filename numTotal =
      ((none, some (base_filename filename)),
        (chunkLoop ora numTotal (splitChunks MAX_CHUNK_SIZE text).length
          (splitChunks MAX_CHUNK_SIZE text).length 0 ⟨[], []⟩).2) := by
  have hq : (chunkLoop ora numTotal (splitChunks MAX_CHUNK_SIZE text).length
      (splitChunks MAX_CHUNK_SIZE text).length 0 ⟨[], []⟩).1.allQuestions = [] :=
    chunkLoop_questions_of_summaries_eq ora numTotal _ _ 0 ⟨[], []⟩ hsum
  simp only [create_quiz_from_text]
  rw [if_neg hN, if_pos hsum, if_pos hq]

/-- Driver outcome, case: a summary was collected and the save raises; the
top-level guard returns the no-quiz, no-identifier outcome. -/
theorem create_quiz_save_fails (ora : Oracle) (text filename : List Char)
    (numTotal : Int) (u : Unit)
    (hN : (splitChunks MAX_CHUNK_SIZE text).length ≠ 0)
    (hsum : (chunkLoop ora numTotal (splitChunks MAX_CHUNK_SIZE text).length
      (splitChunks MAX_CHUNK_SIZE text).length 0 ⟨[], []⟩).1.summaries ≠ [])
    (hsv : ora.save = .error u) :
    create_quiz_from_text ora text filename numTotal =
      ((none, none),
        (chunkLoop ora numTotal (splitChunks MAX_CHUNK_SIZE text).length
          (splitChunks MAX_CHUNK_SIZE text).length 0 ⟨[], []⟩).2 ++
        [Event.saveSummary
          (String.intercalate "\n\n"
            (chunkLoop ora numTotal (splitChunks MAX_CHUNK_SIZE text).length
              (splitChunks MAX_CHUNK_SIZE text).length 0 ⟨[], []⟩).1.summaries)
          (base_filename filename ++ "_summary.txt".toList)]) := by
  simp only [create_quiz_from_text]
  rw [if_neg hN, if_neg hsum, hsv]

/-- Driver outcome, case: a summary was collected, the save succeeds, and no
question was collected. -/
theorem create_quiz_saved_no_questions (ora : Oracle) (text filename : List Char)
    (numTotal : Int)
    (hN : (splitChunks MAX_CHUNK_SIZE text).length ≠ 0)
    (hsum : (chunkLoop ora numTotal (splitChunks MAX_CHUNK_SIZE text).length
      (splitChunks MAX_CHUNK_SIZE text).length 0 ⟨[], []⟩).1.summaries ≠ [])
    (hsv : ora.save = .ok ())
    (hq : (chunkLoop ora numTotal (splitChunks MAX_CHUNK_SIZE text).length
      (splitChunks MAX_CHUNK_SIZE text).length 0 ⟨[], []⟩).1.allQuestions = []) :
    create_quiz_from_text ora text filename numTotal =
      ((none, some (base_filename filename)),
        (chunkLoop ora numTotal (splitChunks MAX_CHUNK_SIZE text).length
          (splitChunks MAX_CHUNK_SIZE text).length 0 ⟨[], []⟩).2 ++
        [Event.saveSummary
          (String.intercalate "\n\n"
            (chunkLoop ora numTotal (splitChunks MAX_CHUNK_SIZE text).length
              (splitChunks MAX_CHUNK_SIZE text).length 0 ⟨[], []⟩).1.summaries)
          (base_filename filename ++ "_summary.txt".toList)]) := by
  simp only [create_quiz_from_text]
  rw [if_neg hN, if_neg hsum, hsv, if_pos hq]

/-- Driver outcome, case: a summary was collected, the save succeeds, and
questions were collected; the final quiz is the truncated accumulation. -/
theorem create_quiz_saved_questions (ora : Oracle) (text filename : List Char)
    (numTotal : Int)
    (hN : (splitChunks MAX_CHUNK_SIZE text).length ≠ 0)
    (hsum : (chunkLoop ora numTotal (splitChunks MAX_CHUNK_SIZE text).length
      (splitChunks MAX_CHUNK_SIZE text).length 0 ⟨[], []⟩).1.summaries ≠ [])
    (hsv : ora.save = .ok ())
    (hq : (chunkLoop ora numTotal (splitChunks MAX_CHUNK_SIZE text).length
      (splitChunks MAX_CHUNK_SIZE text).length 0 ⟨[], []⟩).1.allQuestions ≠ []) :
    create_quiz_from_text ora text filename numTotal =
      ((some ⟨finalQuestions numTotal
          (chunkLoop ora numTotal (splitChunks MAX_CHUNK_SIZE text).length
            (splitChunks MAX_CHUNK_SIZE text).length 0 ⟨[], []⟩).1.allQuestions⟩,
        some (base_filename filename)),
        (chunkLoop ora numTotal (splitChunks MAX_CHUNK_SIZE text).length
          (splitChunks MAX_CHUNK_SIZE text).length 0 ⟨[], []⟩).2 ++
        [Event.saveSummary
          (String.intercalate "\n\n"
            (chunkLoop ora numTotal (splitChunks MAX_CHUNK_SIZE text).length
              (splitChunks MAX_CHUNK_SIZE text).length 0 ⟨[], []⟩).1.summaries)
          (base_filename filename ++ "_summary.txt".toList)]) := by
  simp only [create_quiz_from_text]
  rw [if_neg hN, if_neg hsum, hsv, if_neg hq]

/-- C3: the pipeline driver always returns a definite pair (the embedding is
a total function): zero chunks yield the no-quiz outcome with the document
identifier; zero accumulated questions (with the save succeeding) yield the
same; an unexpected internal error — the summary save raising — yields the
no-quiz, no-identifier outcome; and every run ends in one of the three
outcome shapes, the identifier always being the stripped base name. -/
theorem c3_no_raise_outcomes (ora : Oracle) (text filename : List Char)
    (numTotal : Int) :
    (splitChunks MAX_CHUNK_SIZE text = [] →
      create_quiz_from_text ora text filename numTotal =
        ((none, some (base_filename filename)), [])) ∧
    (∀ u, ora.save = .error u →
      (chunkLoop ora numTotal (splitChunks MAX_CHUNK_SIZE text).length
        (splitChunks MAX_CHUNK_SIZE text).length 0 ⟨[], []⟩).1.summaries ≠ [] →
      (create_quiz_from_text ora text filename numTotal).1 = (none, none)) ∧
    (ora.save = .ok () →
      (chunkLoop ora numTotal (splitChunks MAX_CHUNK_SIZE text).length
        (splitChunks MAX_CHUNK_SIZE text).length 0 ⟨[], []⟩).1.allQuestions = [] →
      (create_quiz_from_text ora text filename numTotal).1 =
        (none, some (base_filename filename))) ∧
    ((create_quiz_from_text ora text filename numTotal).1 = (none, none) ∨
      (create_quiz_from_text ora text filename numTotal).1 =
        (none, some (base_filename filename)) ∨
      ∃ q, (create_quiz_from_text ora text filename numTotal).1 =
        (some q, some (base_filename filename))) := by
  refine ⟨?_, ?_, ?_, ?_⟩
  · intro h
    exact create_quiz_zero_chunks ora text filename numTotal (by rw [h]; rfl)
  · intro u hsv hsum
    by_cases hN : (splitChunks MAX_CHUNK_SIZE text).length = 0
    · exact absurd (by rw [hN]; rfl) hsum
    · rw [create_quiz_save_fails ora text filename numTotal u hN hsum hsv]
  · intro hsv hq
    by_cases hN : (splitChunks MAX_CHUNK_SIZE text).length = 0
    · rw [create_quiz_zero_chunks ora text filename numTotal hN]
    · by_cases hsum : (chunkLoop ora numTotal (splitChunks MAX_CHUNK_SIZE text).length
        (splitChunks MAX_CHUNK_SIZE text).length 0 ⟨[], []⟩).1.summaries = []
      · rw [create_quiz_no_summaries ora text filename numTotal hN hsum]
      · rw [create_quiz_saved_no_questions ora text filename numTotal hN hsum hsv hq]
  · by_cases hN : (splitChunks MAX_CHUNK_SIZE text).length = 0
    · exact Or.inr (Or.inl (by rw [create_quiz_zero_chunks ora text filename numTotal hN]))
    · by_cases hsum : (chunkLoop ora numTotal (splitChunks MAX_CHUNK_SIZE text).length
        (splitChunks MAX_CHUNK_SIZE text).length 0 ⟨[], []⟩).1.summaries = []
      · exact Or.inr (Or.inl
          (by rw [create_quiz_no_summaries ora text filename numTotal hN hsum]))
      · rcases hsv : ora.save with u | u
        · exact Or.inl
            (by rw [create_quiz_save_fails ora text filename numTotal u hN hsum hsv])
        · cases u
          by_cases hq : (chunkLoop ora numTotal (splitChunks MAX_CHUNK_SIZE text).length
            (splitChunks MAX_CHUNK_SIZE text).length 0 ⟨[], []⟩).1.allQuestions = []
          · exact Or.inr (Or.inl (by
              rw [create_quiz_saved_no_questions ora text filename numTotal hN hsum hsv hq]))
          · exact Or.inr (Or.inr ⟨_, by
              rw [create_quiz_saved_questions ora text filename numTotal hN hsum hsv hq]⟩)

/-- C3 witness: the empty text splits into zero chunks and the run reports
the no-quiz outcome with the identifier, raising nothing. -/
theorem c3_no_raise_outcomes_witness :
    create_quiz_from_text oraNoQuestions [] ("f.txt".toList) 10 =
      ((none, some ("f".toList)), []) := by
  have h := (c3_no_raise_outcomes oraNoQuestions [] ("f.txt".toList) 10).1 rfl
  exact h.trans (by decide)

/-- C8: the aggregated-summary save request is issued if and only if at
least one chunk produced a non-empty summary (irrespective of question
generation); its content is those non-empty chunk summaries in chunk order
joined by a blank line, its file name derives from the document identifier;
and when every chunk's summarization fails, nothing is saved and the run
reports the no-quiz outcome with the identifier. -/
theorem c8_summary_persistence (ora : Oracle) (text filename : List Char)
    (numTotal : Int) :
    ((∃ c f, Event.saveSummary c f ∈ (create_quiz_from_text ora text filename numTotal).2) ↔
      ((splitChunks MAX_CHUNK_SIZE text).length ≠ 0 ∧
        (chunkLoop ora numTotal (splitChunks MAX_CHUNK_SIZE text).length
          (splitChunks MAX_CHUNK_SIZE text).length 0 ⟨[], []⟩).1.summaries ≠ [])) ∧
    ((splitChunks MAX_CHUNK_SIZE text).length ≠ 0 →
      (chunkLoop ora numTotal (splitChunks MAX_CHUNK_SIZE text).length
        (splitChunks MAX_CHUNK_SIZE text).length 0 ⟨[], []⟩).1.summaries ≠ [] →
      Event.saveSummary
          (String.intercalate "\n\n"
            (chunkLoop ora numTotal (splitChunks MAX_CHUNK_SIZE text).length
              (splitChunks MAX_CHUNK_SIZE text).length 0 ⟨[], []⟩).1.summaries)
          (base_filename filename ++ "_summary.txt".toList) ∈
        (create_quiz_from_text ora text filename numTotal).2) ∧
    (∃ k, k ≤ (splitChunks MAX_CHUNK_SIZE text).length ∧
      (chunkLoop ora numTotal (splitChunks MAX_CHUNK_SIZE text).length
        (splitChunks MAX_CHUNK_SIZE text).length 0 ⟨[], []⟩).1.summaries =
        ((List.range' 0 k).map (summarizeChunk ora)).filter (fun s => !(s == ""))) ∧
    ((∀ i, i < (splitChunks MAX_CHUNK_SIZE text).length → summarizeChunk ora i = "") →
      (create_quiz_from_text ora text filename numTotal).1 =
        (none, some (base_filename filename)) ∧
      ∀ c f, Event.saveSummary c f ∉ (create_quiz_from_text ora text filename numTotal).2) := by
  have hsave_mem : (splitChunks MAX_CHUNK_SIZE text).length ≠ 0 →
      (chunkLoop ora numTotal (splitChunks MAX_CHUNK_SIZE text).length
        (splitChunks MAX_CHUNK_SIZE text).length 0 ⟨[], []⟩).1.summaries ≠ [] →
      Event.saveSummary
          (String.intercalate "\n\n"
            (chunkLoop ora numTotal (splitChunks MAX_CHUNK_SIZE text).length
              (splitChunks MAX_CHUNK_SIZE text).length 0 ⟨[], []⟩).1.summaries)
          (base_filename filename ++ "_summary.txt".toList) ∈
        (create_quiz_from_text ora text filename numTotal).2 := by
    intro hN hsum
    rcases hsv : ora.save with u | u
    · rw [create_quiz_save_fails ora text filename numTotal u hN hsum hsv]
      simp
    · cases u
      by_cases hq : (chunkLoop ora numTotal (splitChunks MAX_CHUNK_SIZE text).length
        (splitChunks MAX_CHUNK_SIZE text).length 0 ⟨[], []⟩).1.allQuestions = []
      · rw [create_quiz_saved_no_questions ora text filename numTotal hN hsum hsv hq]
        simp
      · rw [create_quiz_saved_questions ora text filename numTotal hN hsum hsv hq]
        simp
  refine ⟨⟨?_, fun ⟨hN, hsum⟩ => ⟨_, _, hsave_mem hN hsum⟩⟩, hsave_mem, ?_, ?_⟩
  · rintro ⟨c, f, hmem⟩
    by_cases hN : (splitChunks MAX_CHUNK_SIZE text).length = 0
    · rw [create_quiz_zero_chunks ora text filename numTotal hN] at hmem
      simp at hmem
    · refine ⟨hN, ?_⟩
      intro hsum
      rw [create_quiz_no_summaries ora text filename numTotal hN hsum] at hmem
      exact chunkLoop_no_save ora numTotal _ _ 0 ⟨[], []⟩ c f hmem
  · obtain ⟨k, hk, h⟩ := chunkLoop_summaries ora numTotal
      (splitChunks MAX_CHUNK_SIZE text).length (splitChunks MAX_CHUNK_SIZE text).length
      0 ⟨[], []⟩
    exact ⟨k, hk, by simpa using h⟩
  · intro hall
    have heq := chunkLoop_all_empty ora numTotal (splitChunks MAX_CHUNK_SIZE text).length
      (splitChunks MAX_CHUNK_SIZE text).length 0 ⟨[], []⟩
      (fun m _ hmr => hall m (by omega))
    by_cases hN : (splitChunks MAX_CHUNK_SIZE text).length = 0
    · rw [create_quiz_zero_chunks ora text filename numTotal hN]
      simp
    · have hsum : (chunkLoop ora numTotal (splitChunks MAX_CHUNK_SIZE text).length
          (splitChunks MAX_CHUNK_SIZE text).length 0 ⟨[], []⟩).1.summaries = [] := by
        rw [heq]
      rw [create_quiz_no_summaries ora text filename numTotal hN hsum]
      refine ⟨rfl, ?_⟩
      intro c f hmem
      exact chunkLoop_no_save ora numTotal _ _ 0 ⟨[], []⟩ c f hmem

/-- C8 witness: a run in which every summarization fails persists nothing
and reports the no-quiz outcome with the identifier. -/
theorem c8_summary_persistence_witness :
    (create_quiz_from_text oraAllFail ['a'] ("f.txt".toList) 10).1 =
      (none, some ("f".toList)) ∧
    Event.saveSummary "s" ("f_summary.txt".toList) ∉
      (create_quiz_from_text oraAllFail ['a'] ("f.txt".toList) 10).2 := by
  have h := (c8_summary_persistence oraAllFail ['a'] ("f.txt".toList) 10).2.2.2
    (by intro i _; rfl)
  exact ⟨h.1.trans (by decide), h.2 "s" ("f_summary.txt".toList)⟩

/-- C2 counterexample: a run that accumulates one question (target 10) but
whose summary save raises returns no quiz at all — `(none, none)` — rather
than the first `min(10, 1)` accumulated questions, refuting the claim as
stated for every run that accumulates at least one question. -/
theorem c2_counterexample :
    (chunkLoop oraSaveFail 10 1 1 0 ⟨[], []⟩).1.allQuestions = [exQ] ∧
    (create_quiz_from_text oraSaveFail ['a'] ("f.txt".toList) 10).1 =
      (none, none) := by
  decide

/-- C2 (amended): for every run whose summary save succeeds and that
accumulates at least one question, a positive target yields exactly the first
`min(target, accumulated)` questions in accumulation order, and a
non-positive target yields the entire accumulated sequence unchanged. -/
theorem c2_final_quiz_truncation (ora : Oracle) (text filename : List Char)
    (numTotal : Int) (hsv : ora.save = .ok ())
    (hq : (chunkLoop ora numTotal (splitChunks MAX_CHUNK_SIZE text).length
      (splitChunks MAX_CHUNK_SIZE text).length 0 ⟨[], []⟩).1.allQuestions ≠ []) :
    (0 < numTotal →
      (create_quiz_from_text ora text filename numTotal).1 =
        (some ⟨((chunkLoop ora numTotal (splitChunks MAX_CHUNK_SIZE text).length
            (splitChunks MAX_CHUNK_SIZE text).length 0 ⟨[], []⟩).1.allQuestions).take
              numTotal.toNat⟩,
          some (base_filename filename)) ∧
      (((chunkLoop ora numTotal (splitChunks MAX_CHUNK_SIZE text).length
          (splitChunks MAX_CHUNK_SIZE text).length 0 ⟨[], []⟩).1.allQuestions).take
            numTotal.toNat).length =
        min numTotal.toNat
          (chunkLoop ora numTotal (splitChunks MAX_CHUNK_SIZE text).length
            (splitChunks MAX_CHUNK_SIZE text).length 0 ⟨[], []⟩).1.allQuestions.length) ∧
    (numTotal ≤ 0 →
      (create_quiz_from_text ora text filename numTotal).1 =
        (some ⟨(chunkLoop ora numTotal (splitChunks MAX_CHUNK_SIZE text).length
            (splitChunks MAX_CHUNK_SIZE text).length 0 ⟨[], []⟩).1.allQuestions⟩,
          some (base_filename filename))) := by
  have hN : (splitChunks MAX_CHUNK_SIZE text).length ≠ 0 := by
    intro h0
    apply hq
    rw [h0]
    rfl
  have hsum : (chunkLoop ora numTotal (splitChunks MAX_CHUNK_SIZE text).length
      (splitChunks MAX_CHUNK_SIZE text).length 0 ⟨[], []⟩).1.summaries ≠ [] :=
    fun hs => hq (chunkLoop_questions_of_summaries_eq ora numTotal _ _ 0 ⟨[], []⟩ hs)
  constructor
  · intro hpos
    rw [create_quiz_saved_questions ora text filename numTotal hN hsum hsv hq]
    refine ⟨?_, by simp [List.length_take]⟩
    simp only [finalQuestions, if_pos hpos]
  · intro hle
    rw [create_quiz_saved_questions ora text filename numTotal hN hsum hsv hq]
    simp only [finalQuestions, if_neg (by omega : ¬ 0 < numTotal)]

/-- C2 witness: three questions accumulated, target 2: the final quiz is the
first two questions. -/
theorem c2_final_quiz_truncation_witness :
    (create_quiz_from_text oraAlloc ['a'] ("f.txt".toList) 2).1 =
      (some ⟨[exQ, exQ]⟩, some ("f".toList)) := by
  have h := (c2_final_quiz_truncation oraAlloc ['a'] ("f.txt".toList) 2 rfl
    (by decide)).1 (by decide)
  exact h.1.trans (by decide)

/-- C5 counterexample: with target 0, one chunk summarized successfully and
the summary save raising, the run returns `(none, none)` — the no-quiz
outcome does NOT carry the document identifier (which would be "f"),
refuting the claim's final clause as stated for every run. -/
theorem c5_counterexample :
    (create_quiz_from_text oraSaveFail ['a'] ("f.txt".toList) 0).1 = (none, none) ∧
    base_filename ("f.txt".toList) = "f".toList := by
  decide

/-- C5 (amended): when the target is 0 and the summary save does not raise,
no question-generation request is ever issued, question processing stops at
the first successfully summarized chunk (no later chunk is summarized), and
the run ends in the no-quiz outcome carrying the document identifier. -/
theorem c5_target_zero (ora : Oracle) (text filename : List Char)
    (hsv : ora.save = .ok ()) :
    (create_quiz_from_text ora text filename 0).1 =
      (none, some (base_filename filename)) ∧
    (∀ j k, Event.genReq j k ∉ (create_quiz_from_text ora text filename 0).2) ∧
    (∀ j, j < (splitChunks MAX_CHUNK_SIZE text).length →
      (∀ m, m < j → summarizeChunk ora m = "") → summarizeChunk ora j ≠ "" →
      ∀ i, j < i →
        Event.summarizeReq i ∉ (create_quiz_from_text ora text filename 0).2) := by
  have hng := chunkLoop_no_gen ora 0 (splitChunks MAX_CHUNK_SIZE text).length
    (splitChunks MAX_CHUNK_SIZE text).length 0 ⟨[], []⟩ (Or.inl rfl)
  by_cases hN : (splitChunks MAX_CHUNK_SIZE text).length = 0
  · rw [create_quiz_zero_chunks ora text filename 0 hN]
    refine ⟨rfl, by simp, by simp⟩
  · by_cases hsum : (chunkLoop ora 0 (splitChunks MAX_CHUNK_SIZE text).length
      (splitChunks MAX_CHUNK_SIZE text).length 0 ⟨[], []⟩).1.summaries = []
    · rw [create_quiz_no_summaries ora text filename 0 hN hsum]
      refine ⟨rfl, fun j k => hng.2 j k, ?_⟩
      intro j hj hpre hjne i hji
      have heq := chunkLoop_drain ora 0 (splitChunks MAX_CHUNK_SIZE text).length
        (splitChunks MAX_CHUNK_SIZE text).length 0 j ⟨[], []⟩ (Or.inl rfl)
        (Nat.zero_le j) (by omega) (fun m _ hm => hpre m hm) hjne
      rw [heq] at hsum
      simp at hsum
    · rw [create_quiz_saved_no_questions ora text filename 0 hN hsum hsv hng.1]
      refine ⟨rfl, ?_, ?_⟩
      · intro j k hmem
        rcases List.mem_append.mp hmem with h | h
        · exact hng.2 j k h
        · rcases List.mem_singleton.mp h with h
          exact Event.noConfusion h
      · intro j hj hpre hjne i hji hmem
        have heq := chunkLoop_drain ora 0 (splitChunks MAX_CHUNK_SIZE text).length
          (splitChunks MAX_CHUNK_SIZE text).length 0 j ⟨[], []⟩ (Or.inl rfl)
          (Nat.zero_le j) (by omega) (fun m _ hm => hpre m hm) hjne
        rcases List.mem_append.mp hmem with h | h
        · rw [heq] at h
          simp only [List.mem_map] at h
          rcases h with ⟨m, hm, hme⟩
          rcases List.mem_range'_1.mp hm with ⟨-, hmlt⟩
          cases hme
          omega
        · rcases List.mem_singleton.mp h with h
          exact Event.noConfusion h

/-- C5 witness: target 0, save succeeding; the run carries the identifier
and never requests question generation. -/
theorem c5_target_zero_witness :
    (create_quiz_from_text oraNoQuestions ['a'] ("f.txt".toList) 0).1 =
      (none, some ("f".toList)) ∧
    Event.genReq 0 1 ∉ (create_quiz_from_text oraNoQuestions ['a'] ("f.txt".toList) 0).2 := by
  have h := c5_target_zero oraNoQuestions ['a'] ("f.txt".toList) rfl
  exact ⟨h.1.trans (by decide), h.2.1 0 1⟩

/-- Replacement of a pattern that never occurs is the identity. -/
theorem replaceAll_no_occurrence (pat s : List Char) (h : ¬ pat <:+: s) :
    replaceAll pat s = s :=
  replaceAllAux_no_occurrence pat s.length s (le_refl _) h

/-- Replacing an overlap-free pattern in `stem ++ pat`, with no occurrence
inside `stem`, strips exactly the trailing pattern. -/
theorem replaceAll_append_pat (pat stem : List Char) (hne : pat ≠ [])
    (hov : overlapFree pat) (h : ¬ pat <:+: stem) :
    replaceAll pat (stem ++ pat) = stem := by
  refine replaceAllAux_append_pat pat hne hov (stem ++ pat).length stem ?_ h
  rw [List.length_append]

/-- The pattern ".pdf" does not overlap itself. -/
theorem overlapFree_pdf : overlapFree (".pdf".toList) := by
  intro m h1 h2
  have he : (".pdf".toList).length = 4 := rfl
  have h4 : m < 4 := by omega
  interval_cases m <;> decide

/-- The pattern ".txt" does not overlap itself. -/
theorem overlapFree_txt : overlapFree (".txt".toList) := by
  intro m h1 h2
  have he : (".txt".toList).length = 4 := rfl
  have h4 : m < 4 := by omega
  interval_cases m <;> decide

/-- C9 counterexample: the source strips every occurrence of ".pdf" and
".txt", not just a trailing extension: for the filename "a.txt.txt" the
code's identifier is "a", while the filename with its known extension
stripped is "a.txt". -/
theorem c9_counterexample :
    base_filename ("a.txt.txt".toList) = "a".toList ∧
    stripKnownExtension ("a.txt.txt".toList) = "a.txt".toList ∧
    base_filename ("a.txt.txt".toList) ≠ stripKnownExtension ("a.txt.txt".toList) := by
  decide

/-- C9 (amended): the identifier is the filename with every occurrence of
".pdf" and then of ".txt" removed; for every filename consisting of a stem
that contains neither ".pdf" nor ".txt" followed by one known extension,
this equals the base name — in particular "cancer_report.pdf" maps to
"cancer_report" and "notes.txt" maps to "notes". -/
theorem c9_identifier_derivation :
    (∀ stem : List Char, ¬ (".pdf".toList <:+: stem) → ¬ (".txt".toList <:+: stem) →
      base_filename (stem ++ ".pdf".toList) = stem ∧
      base_filename (stem ++ ".txt".toList) = stem) ∧
    base_filename ("cancer_report.pdf".toList) = "cancer_report".toList ∧
    base_filename ("notes.txt".toList) = "notes".toList := by
  refine ⟨?_, by decide, by decide⟩
  intro stem hpdf htxt
  constructor
  · show replaceAll (".txt".toList) (replaceAll (".pdf".toList) (stem ++ ".pdf".toList)) = stem
    rw [replaceAll_append_pat _ _ (by decide) overlapFree_pdf hpdf]
    exact replaceAll_no_occurrence _ _ htxt
  · show replaceAll (".txt".toList) (replaceAll (".pdf".toList) (stem ++ ".txt".toList)) = stem
    have hcross : ∀ j, 0 < j → j < (".pdf".toList).length →
        ¬ ((".pdf".toList).drop j <+: ".txt".toList) := by
      intro j h1 h2
      have he : (".pdf".toList).length = 4 := rfl
      have h4 : j < 4 := by omega
      interval_cases j <;> decide
    have hocc := no_occurrence_append (".pdf".toList) stem (".txt".toList)
      hpdf (by decide) hcross
    rw [replaceAll_no_occurrence _ _ hocc]
    exact replaceAll_append_pat _ _ (by decide) overlapFree_txt htxt

/-- C9 witness: the stem "cancer_report" contains no known extension, so the
identifier of "cancer_report.pdf" is the base name. -/
theorem c9_identifier_derivation_witness :
    (¬ (".pdf".toList <:+: "cancer_report".toList)) ∧
    base_filename ("cancer_report".toList ++ ".pdf".toList) = "cancer_report".toList := by
  have h := c9_identifier_derivation.1 ("cancer_report".toList) (by decide) (by decide)
  exact ⟨by decide, h.1⟩

end AIQuiz
